import Mathlib

/-!
Verification of the currency-rate service (NestJS repository).

Shallow embedding conventions:
* A JS `number` holding a rate is modelled as `Rat` (the code only ever
  produces finite decimal values; `toFixed(6)` rounding is modelled exactly).
* A JS `Date` / epoch-millisecond timestamp is modelled as `Int`
  (`Math.floor(ms / 60000)` becomes `Int.fdiv ms 60000`).
* The database table `exchange_rates` is modelled as a `List ExchangeRate`
  in insertion order (the surrogate `id` column is the list position and is
  never used by the business logic).
* Fallible repository writes are modelled with an explicit oracle
  `saveFails : Nat → Bool` saying whether the i-th `repo.save` call of a
  batch throws; a thrown exception propagates exactly as in the source
  (no try/catch inside `fetchAndSaveRates`'s loop).
* `HttpException(message, status)` from NestJS is modelled as a
  status/message pair.
-/

namespace CurrencySpec

/-- One row of the `exchange_rates` table
(src/currency/entities/exchange-rate.entity.ts). -/
structure ExchangeRate where
  baseCurrency : String
  targetCurrency : String
  rate : Rat
  /-- epoch milliseconds of the `fetchedAt` timestamp column -/
  fetchedAt : Int
  fetchedAtMinute : Int
deriving Repr, DecidableEq

abbrev Store := List ExchangeRate

/-- NestJS `HttpException(message, status)`. -/
structure HttpException where
  status : Nat
  message : String
deriving Repr, DecidableEq

/-- The `where` clause used by both duplicate checks:
`{ baseCurrency: base, targetCurrency: target, fetchedAtMinute }`. -/
def tripleMatch (b t : String) (m : Int) (r : ExchangeRate) : Bool :=
  r.baseCurrency == b && r.targetCurrency == t && r.fetchedAtMinute == m

/-- `Math.floor(now.getTime() / 60_000)` (JS `Math.floor` is real floor,
hence `Int.fdiv`). -/
def minuteOf (nowMs : Int) : Int := Int.fdiv nowMs 60000

/-- `CurrencyService.saveRate`: check-then-write with the minute-window
duplicate check; the raw rate is stored unrounded. -/
def saveRate (store : Store) (base target : String) (rate : Rat) (nowMs : Int) : Store :=
  let fetchedAtMinute := minuteOf nowMs
  match store.find? (tripleMatch base target fetchedAtMinute) with
  | some _ => store
  | none => store ++ [⟨base, target, rate, nowMs, fetchedAtMinute⟩]

/-- JS `Number(x.toFixed(6))`: round to 6 fractional digits, ties away
from zero toward the larger candidate (ECMA `toFixed` picks the larger n). -/
def round6 (q : Rat) : Rat := ((⌊q * 1000000 + 1/2⌋ : Int) : Rat) / 1000000

/-- Validated upstream snapshot `{ date, rates }` as returned by
`FrankfurterService.fetchLatest`. -/
structure Snapshot where
  date : String
  rates : List (String × Rat)
deriving Repr, DecidableEq

/-- Result of one `fetchAndSaveRates` run. `failed` records whether an
exception escaped the method (a `repo.save` throw propagates, because the
source loop has no try/catch); `processed` records, in order, the targets
whose loop iteration was reached before the method returned or threw. -/
structure IngestResult where
  store : Store
  failed : Bool
  processed : List String
deriving Repr, DecidableEq

/-- The per-pair loop of `CurrencyService.fetchAndSaveRates`
(`for (const [target, rateValue] of Object.entries(response.rates))`).
`idx` counts the `repo.save` calls issued so far, feeding the failure
oracle. An exception from `repo.save` aborts the whole loop. -/
def savePairsGo (base : String) (nowMs : Int) (saveFails : Nat → Bool) :
    Store → List (String × Rat) → Nat → List String → IngestResult
  | store, [], _, processed => ⟨store, false, processed⟩
  | store, (target, rateValue) :: rest, idx, processed =>
    let rate := round6 rateValue
    let fetchedAtMinute := minuteOf nowMs
    match store.find? (tripleMatch base target fetchedAtMinute) with
    | some _ => savePairsGo base nowMs saveFails store rest idx (processed ++ [target])
    | none =>
      if saveFails idx then
        ⟨store, true, processed ++ [target]⟩
      else
        savePairsGo base nowMs saveFails
          (store ++ [⟨base, target, rate, nowMs, fetchedAtMinute⟩])
          rest (idx + 1) (processed ++ [target])

/-- `CurrencyService.fetchAndSaveRates` after the upstream call: the
`!response?.rates` guard returns silently; otherwise one shared
`now` / `fetchedAtMinute` is computed and the pair loop runs. -/
def fetchAndSaveRates (store : Store) (base : String) (response : Option Snapshot)
    (nowMs : Int) (saveFails : Nat → Bool) : IngestResult :=
  match response with
  | none => ⟨store, false, []⟩
  | some snap => savePairsGo base nowMs saveFails store snap.rates 0 []

/-- An insert-side operation of the system (the only two code paths that
write rows). -/
inductive Op
  | save (base target : String) (rate : Rat) (nowMs : Int)
  | ingest (base : String) (response : Option Snapshot) (nowMs : Int) (saveFails : Nat → Bool)

def applyOp (store : Store) : Op → Store
  | .save b t r n => saveRate store b t r n
  | .ingest b resp n f => (fetchAndSaveRates store b resp n f).store

/-- Run a sequence of insert operations against the initially empty table. -/
def runOps (ops : List Op) : Store := ops.foldl applyOp []

/-- Number of rows carrying a given (base, target, observedMinute) triple. -/
def countTriple (store : Store) (b t : String) (m : Int) : Nat :=
  store.countP (tripleMatch b t m)

/-- The deduplication invariant: at most one row per
(baseCurrency, targetCurrency, fetchedAtMinute) triple. -/
def atMostOnePerTriple (store : Store) : Prop :=
  ∀ b t m, countTriple store b t m ≤ 1

lemma countTriple_append_single (store : Store) (row : ExchangeRate) (b t : String) (m : Int) :
    countTriple (store ++ [row]) b t m =
      countTriple store b t m + (if tripleMatch b t m row then 1 else 0) := by
  simp [countTriple, List.countP_append, List.countP_cons]

lemma tripleMatch_self (base target : String) (rate : Rat) (nowMs m : Int) :
    tripleMatch base target m ⟨base, target, rate, nowMs, m⟩ = true := by
  simp [tripleMatch]

lemma countTriple_eq_zero_of_find?_none (store : Store) (b t : String) (m : Int)
    (h : store.find? (tripleMatch b t m) = none) :
    countTriple store b t m = 0 := by
  rw [List.find?_eq_none] at h
  simpa [countTriple, List.countP_eq_zero] using h

/-- Appending a row whose triple is absent preserves the invariant. -/
lemma insertAbsent_preserves (store : Store) (row : ExchangeRate)
    (h : store.find? (tripleMatch row.baseCurrency row.targetCurrency row.fetchedAtMinute) = none)
    (hinv : atMostOnePerTriple store) :
    atMostOnePerTriple (store ++ [row]) := by
  intro b t m
  rw [countTriple_append_single]
  by_cases hm : tripleMatch b t m row = true
  · have hb : (row.baseCurrency = b ∧ row.targetCurrency = t) ∧ row.fetchedAtMinute = m := by
      simpa [tripleMatch, Bool.and_eq_true, beq_iff_eq] using hm
    obtain ⟨⟨hb1, hb2⟩, hb3⟩ := hb
    subst hb1; subst hb2; subst hb3
    have h0 := countTriple_eq_zero_of_find?_none store _ _ _ h
    have hself : tripleMatch row.baseCurrency row.targetCurrency row.fetchedAtMinute row = true := by
      simp [tripleMatch]
    simp [h0, hself]
  · simp only [hm, if_neg]
    simpa using hinv b t m

lemma saveRate_preserves (store : Store) (base target : String) (rate : Rat) (nowMs : Int)
    (hinv : atMostOnePerTriple store) :
    atMostOnePerTriple (saveRate store base target rate nowMs) := by
  unfold saveRate
  cases hfind : store.find? (tripleMatch base target (minuteOf nowMs)) with
  | some r => simpa [hfind] using hinv
  | none =>
    simp only [hfind]
    exact insertAbsent_preserves store ⟨base, target, rate, nowMs, minuteOf nowMs⟩ hfind hinv

lemma savePairsGo_preserves (base : String) (nowMs : Int) (saveFails : Nat → Bool) :
    ∀ (pairs : List (String × Rat)) (store : Store) (idx : Nat) (processed : List String),
      atMostOnePerTriple store →
      atMostOnePerTriple (savePairsGo base nowMs saveFails store pairs idx processed).store := by
  intro pairs
  induction pairs with
  | nil => intro store idx processed hinv; simpa [savePairsGo] using hinv
  | cons p rest ih =>
    intro store idx processed hinv
    obtain ⟨target, rateValue⟩ := p
    unfold savePairsGo
    cases hfind : store.find? (tripleMatch base target (minuteOf nowMs)) with
    | some r => simpa [hfind] using ih store idx (processed ++ [target]) hinv
    | none =>
      simp only [hfind]
      by_cases hf : saveFails idx
      · simpa [hf] using hinv
      · simp only [hf, if_neg, Bool.false_eq_true, not_false_iff]
        exact ih _ (idx + 1) (processed ++ [target])
          (insertAbsent_preserves store ⟨base, target, round6 rateValue, nowMs, minuteOf nowMs⟩
            hfind hinv)

lemma fetchAndSaveRates_preserves (store : Store) (base : String) (resp : Option Snapshot)
    (nowMs : Int) (saveFails : Nat → Bool) (hinv : atMostOnePerTriple store) :
    atMostOnePerTriple (fetchAndSaveRates store base resp nowMs saveFails).store := by
  cases resp with
  | none => simpa [fetchAndSaveRates] using hinv
  | some snap => exact savePairsGo_preserves base nowMs saveFails snap.rates store 0 [] hinv

lemma runOps_inv (ops : List Op) :
    ∀ store : Store, atMostOnePerTriple store → atMostOnePerTriple (ops.foldl applyOp store) := by
  induction ops with
  | nil => intro store hinv; simpa using hinv
  | cons op rest ih =>
    intro store hinv
    apply ih
    cases op with
    | save b t r n => exact saveRate_preserves store b t r n hinv
    | ingest b resp n f => exact fetchAndSaveRates_preserves store b resp n f hinv

/-- C1: every insert operation (`saveRate` and the per-pair inserts of
`fetchAndSaveRates`) preserves the at-most-one-row-per
(baseCurrency, targetCurrency, fetchedAtMinute) invariant, and any
sequence of such operations run from the empty table leaves at most one
row per triple, whatever the rate values, timestamps, order of calls or
write failures. -/
theorem dedup_invariant :
    (∀ store base target rate nowMs, atMostOnePerTriple store →
        atMostOnePerTriple (saveRate store base target rate nowMs)) ∧
    (∀ store base resp nowMs saveFails, atMostOnePerTriple store →
        atMostOnePerTriple (fetchAndSaveRates store base resp nowMs saveFails).store) ∧
    (∀ ops : List Op, atMostOnePerTriple (runOps ops)) := by
  refine ⟨saveRate_preserves, fetchAndSaveRates_preserves, ?_⟩
  intro ops
  exact runOps_inv ops [] (by intro b t m; simp [countTriple])

/-- Witness for C1 at a concrete store and operation. -/
theorem dedup_invariant_witness :
    atMostOnePerTriple (saveRate [] "USD" "INR" 83 0) :=
  dedup_invariant.1 [] "USD" "INR" 83 0 (by intro b t m; simp [countTriple])

/-- A two-pair upstream snapshot used to exercise the ingestion loop. -/
def twoPairSnap : Snapshot := ⟨"2026-02-08", [("INR", 83), ("EUR", 9/10)]⟩

/-- C2: the per-pair loop of `fetchAndSaveRates` has no try/catch, so a
`repo.save` exception for one pair propagates out of the method and the
sibling pairs are never attempted: starting from the empty table with a
batch of two pairs whose first save throws, the method fails, only the
first pair's iteration is reached, and no row for the second pair exists. -/
theorem fetchAndSave_aborts_siblings :
    (fetchAndSaveRates [] "USD" (some twoPairSnap) 0 (fun _ => true)).failed = true ∧
    (fetchAndSaveRates [] "USD" (some twoPairSnap) 0 (fun _ => true)).processed = ["INR"] ∧
    (fetchAndSaveRates [] "USD" (some twoPairSnap) 0 (fun _ => true)).store = [] := by
  decide

lemma savePairsGo_store_mem (base : String) (nowMs : Int) (saveFails : Nat → Bool) :
    ∀ (pairs : List (String × Rat)) (store : Store) (idx : Nat) (processed : List String)
      (r : ExchangeRate),
      r ∈ (savePairsGo base nowMs saveFails store pairs idx processed).store →
      r ∈ store ∨
        (r.baseCurrency = base ∧ r.fetchedAt = nowMs ∧ r.fetchedAtMinute = Int.fdiv nowMs 60000) := by
  intro pairs
  induction pairs with
  | nil => intro store idx processed r hr; exact Or.inl (by simpa [savePairsGo] using hr)
  | cons p rest ih =>
    intro store idx processed r hr
    obtain ⟨target, rateValue⟩ := p
    unfold savePairsGo at hr
    cases hfind : store.find? (tripleMatch base target (minuteOf nowMs)) with
    | some q =>
      simp only [hfind] at hr
      exact ih store idx (processed ++ [target]) r hr
    | none =>
      simp only [hfind] at hr
      by_cases hf : saveFails idx
      · simp [hf] at hr
        exact Or.inl hr
      · simp only [hf, Bool.false_eq_true, if_neg, not_false_iff] at hr
        rcases ih _ (idx + 1) (processed ++ [target]) r hr with hmem | hnew
        · rcases List.mem_append.mp hmem with h1 | h2
          · exact Or.inl h1
          · right
            have : r = ⟨base, target, round6 rateValue, nowMs, minuteOf nowMs⟩ := by
              simpa using h2
            subst this
            exact ⟨rfl, rfl, rfl⟩
        · exact Or.inr hnew

/-- C8: every row persisted by one `fetchAndSaveRates` cycle (i.e. every
row of the resulting store that was not already present) carries the one
`fetchedAt` timestamp computed for the whole batch and the matching
`fetchedAtMinute = floor(epoch_ms / 60000)`. -/
theorem ingest_shared_timestamp (store : Store) (base : String) (resp : Option Snapshot)
    (nowMs : Int) (saveFails : Nat → Bool) (r : ExchangeRate)
    (hr : r ∈ (fetchAndSaveRates store base resp nowMs saveFails).store) :
    r ∈ store ∨
      (r.baseCurrency = base ∧ r.fetchedAt = nowMs ∧ r.fetchedAtMinute = Int.fdiv nowMs 60000) := by
  cases resp with
  | none => exact Or.inl (by simpa [fetchAndSaveRates] using hr)
  | some snap => exact savePairsGo_store_mem base nowMs saveFails snap.rates store 0 [] r hr

/-- Witness for C8: a concrete ingested row carries the batch timestamp. -/
theorem ingest_shared_timestamp_witness :
    (⟨"USD", "INR", 83, 120000, 2⟩ : ExchangeRate) ∈
        (fetchAndSaveRates [] "USD" (some twoPairSnap) 120000 (fun _ => false)).store ∧
      ((⟨"USD", "INR", 83, 120000, 2⟩ : ExchangeRate) ∈ ([] : Store) ∨
        ((⟨"USD", "INR", 83, 120000, 2⟩ : ExchangeRate).baseCurrency = "USD" ∧
          (⟨"USD", "INR", 83, 120000, 2⟩ : ExchangeRate).fetchedAt = 120000 ∧
          (⟨"USD", "INR", 83, 120000, 2⟩ : ExchangeRate).fetchedAtMinute =
            Int.fdiv 120000 60000)) := by
  have hmem : (⟨"USD", "INR", 83, 120000, 2⟩ : ExchangeRate) ∈
      (fetchAndSaveRates [] "USD" (some twoPairSnap) 120000 (fun _ => false)).store := by
    have h83 : round6 83 = 83 := by unfold round6; norm_num
    simp [fetchAndSaveRates, savePairsGo, twoPairSnap, minuteOf, tripleMatch, h83]
  exact ⟨hmem,
    ingest_shared_timestamp [] "USD" (some twoPairSnap) 120000 (fun _ => false)
      ⟨"USD", "INR", 83, 120000, 2⟩ hmem⟩

/-! ### getLatestRates (`CurrencyService.getLatestRates`)

The SQL query selects all rows with the given `baseCurrency`
(`fetchedAt IS NOT NULL` is vacuous in the model), ranks each
`targetCurrency` partition by `fetchedAt DESC` with `ROW_NUMBER()`, and the
JS code keeps the `rn = 1` rows and builds a target → rate record.
`pickLatest` returns the rank-1 row of one partition: the row with the
greatest `fetchedAt`, earliest-inserted among ties (a stable descending
sort). `dedupFirst` lists the distinct targets in first-appearance order,
so `latestEntries` is exactly the set of `rn = 1` rows (`newestRates`).
The NotFound check runs on `newestRates`; only afterwards does the
result-record loop add each row under
`if (currency && !isNaN(rateValue))`, dropping falsy (empty-string)
currencies. -/

def rowsForBase (store : Store) (base : String) : Store :=
  store.filter (fun r => r.baseCurrency == base)

def pickLatest : Store → Option ExchangeRate
  | [] => none
  | r :: rs => some (rs.foldl (fun best x => if best.fetchedAt < x.fetchedAt then x else best) r)

def dedupFirst : List String → List String
  | [] => []
  | a :: l => a :: dedupFirst (l.filter (fun x => x != a))
termination_by l => l.length
decreasing_by
  simpa using Nat.lt_succ_of_le (List.length_filter_le _ _)

def latestEntries (store : Store) (base : String) : List (String × Rat) :=
  (dedupFirst ((rowsForBase store base).map ExchangeRate.targetCurrency)).filterMap
    (fun t =>
      (pickLatest ((rowsForBase store base).filter (fun r => r.targetCurrency == t))).map
        (fun r => (t, r.rate)))

def latestNotFound (base : String) : HttpException :=
  ⟨404, "No rates found for base currency: " ++ base⟩

/-- The result-record building loop: each rank-1 row is added only under
`if (currency && !isNaN(rateValue))`. `parseFloat` of a stored numeric
column never yields NaN in the model, so what remains is the currency
truthiness check: entries whose target currency is the empty string are
dropped. -/
def buildResult (entries : List (String × Rat)) : List (String × Rat) :=
  entries.filter (fun p => p.1 != "")

def getLatestRates (store : Store) (base : String) :
    Except HttpException (List (String × Rat)) :=
  if (latestEntries store base).isEmpty then .error (latestNotFound base)
  else .ok (buildResult (latestEntries store base))

lemma mem_rowsForBase (store : Store) (base : String) (r : ExchangeRate) :
    r ∈ rowsForBase store base ↔ r ∈ store ∧ r.baseCurrency = base := by
  simp [rowsForBase, List.mem_filter]

lemma foldl_latest_mem (rs : Store) :
    ∀ a : ExchangeRate,
      rs.foldl (fun best x => if best.fetchedAt < x.fetchedAt then x else best) a = a ∨
      rs.foldl (fun best x => if best.fetchedAt < x.fetchedAt then x else best) a ∈ rs := by
  induction rs with
  | nil => intro a; exact Or.inl rfl
  | cons y t ih =>
    intro a
    simp only [List.foldl_cons]
    rcases ih (if a.fetchedAt < y.fetchedAt then y else a) with h | h
    · rw [h]
      by_cases hy : a.fetchedAt < y.fetchedAt
      · rw [if_pos hy]; exact Or.inr (List.mem_cons_self y t)
      · rw [if_neg hy]; exact Or.inl rfl
    · exact Or.inr (List.mem_cons_of_mem y h)

lemma foldl_latest_ge (rs : Store) :
    ∀ a : ExchangeRate,
      a.fetchedAt ≤
          (rs.foldl (fun best x => if best.fetchedAt < x.fetchedAt then x else best) a).fetchedAt ∧
      ∀ x ∈ rs, x.fetchedAt ≤
          (rs.foldl (fun best x => if best.fetchedAt < x.fetchedAt then x else best) a).fetchedAt := by
  induction rs with
  | nil => intro a; exact ⟨le_refl _, by simp⟩
  | cons y t ih =>
    intro a
    simp only [List.foldl_cons]
    obtain ⟨h1, h2⟩ := ih (if a.fetchedAt < y.fetchedAt then y else a)
    have hay : a.fetchedAt ≤ (if a.fetchedAt < y.fetchedAt then y else a).fetchedAt := by
      by_cases hy : a.fetchedAt < y.fetchedAt
      · rw [if_pos hy]; exact le_of_lt hy
      · rw [if_neg hy]
    have hyy : y.fetchedAt ≤ (if a.fetchedAt < y.fetchedAt then y else a).fetchedAt := by
      by_cases hy : a.fetchedAt < y.fetchedAt
      · rw [if_pos hy]
      · rw [if_neg hy]; exact le_of_not_lt hy
    refine ⟨le_trans hay h1, ?_⟩
    intro x hx
    rcases List.mem_cons.mp hx with rfl | hx
    · exact le_trans hyy h1
    · exact h2 x hx

lemma pickLatest_spec (rows : Store) (m : ExchangeRate) (h : pickLatest rows = some m) :
    m ∈ rows ∧ ∀ x ∈ rows, x.fetchedAt ≤ m.fetchedAt := by
  cases rows with
  | nil => cases h
  | cons r rs =>
    have hm : rs.foldl (fun best x => if best.fetchedAt < x.fetchedAt then x else best) r = m :=
      Option.some.inj h
    constructor
    · rcases foldl_latest_mem rs r with he | he
      · rw [hm] at he; rw [he]; exact List.mem_cons_self r rs
      · rw [hm] at he; exact List.mem_cons_of_mem r he
    · intro x hx
      obtain ⟨h1, h2⟩ := foldl_latest_ge rs r
      rw [hm] at h1 h2
      rcases List.mem_cons.mp hx with rfl | hx
      · exact h1
      · exact h2 x hx

lemma pickLatest_isSome (rows : Store) (h : rows ≠ []) : ∃ m, pickLatest rows = some m := by
  cases rows with
  | nil => exact absurd rfl h
  | cons r rs => exact ⟨_, rfl⟩

lemma mem_dedupFirst (l : List String) : ∀ x, x ∈ dedupFirst l ↔ x ∈ l := by
  induction l using dedupFirst.induct with
  | case1 => intro x; simp [dedupFirst]
  | case2 a l ih =>
    intro x
    rw [dedupFirst]
    simp only [List.mem_cons, ih]
    constructor
    · rintro (rfl | hx)
      · exact Or.inl rfl
      · exact Or.inr (List.mem_of_mem_filter hx)
    · rintro (rfl | hx)
      · exact Or.inl rfl
      · by_cases hxa : x = a
        · exact Or.inl hxa
        · exact Or.inr (List.mem_filter.mpr ⟨hx, by simpa using hxa⟩)

lemma nodup_dedupFirst (l : List String) : (dedupFirst l).Nodup := by
  induction l using dedupFirst.induct with
  | case1 => simp [dedupFirst]
  | case2 a l ih =>
    rw [dedupFirst]
    refine List.nodup_cons.mpr ⟨?_, ih⟩
    intro hmem
    have ha : a ∈ l.filter (fun x => x != a) := (mem_dedupFirst _ a).mp hmem
    have := (List.mem_filter.mp ha).2
    simp at this

lemma latestEntries_fst (rows : Store) :
    ∀ ts : List String,
      (∀ t ∈ ts, rows.filter (fun r => r.targetCurrency == t) ≠ []) →
      (ts.filterMap (fun t =>
          (pickLatest (rows.filter (fun r => r.targetCurrency == t))).map
            (fun r => (t, r.rate)))).map Prod.fst = ts := by
  intro ts
  induction ts with
  | nil => intro _; rfl
  | cons t ts ih =>
    intro h
    obtain ⟨m, hm⟩ := pickLatest_isSome _ (h t (List.mem_cons_self t ts))
    rw [List.filterMap_cons_some (by rw [hm]; rfl)]
    simp only [List.map_cons]
    rw [ih (fun t' ht' => h t' (List.mem_cons_of_mem t ht'))]

/-- C3 counterexample: a store holding one row whose target currency is
the empty string (reachable: `validateResponse` accepts an empty-string
rates key and `fetchAndSaveRates` stores it) has a target observed for
the base, yet `getLatestRates` succeeds with an empty result record —
the `if (currency && !isNaN(rateValue))` filter silently drops the
entry, so the claim's "exactly one entry per distinct target currency
ever observed" fails. -/
theorem getLatestRates_empty_target_cex :
    getLatestRates [⟨"USD", "", 83, 60000, 1⟩] "USD" = .ok [] ∧
    (⟨"USD", "", 83, 60000, 1⟩ : ExchangeRate).baseCurrency = "USD" ∧
    (⟨"USD", "", 83, 60000, 1⟩ : ExchangeRate).targetCurrency = "" := by
  refine ⟨?_, rfl, rfl⟩
  have hrows : rowsForBase [⟨"USD", "", 83, 60000, 1⟩] "USD" =
      [⟨"USD", "", 83, 60000, 1⟩] := by decide
  have hentries : latestEntries [⟨"USD", "", 83, 60000, 1⟩] "USD" =
      [("", (83 : Rat))] := by
    unfold latestEntries
    rw [hrows]
    simp [dedupFirst, pickLatest]
  simp only [getLatestRates, hentries]
  rfl

lemma mem_buildResult_fst (entries : List (String × Rat)) (t : String) :
    t ∈ (buildResult entries).map Prod.fst ↔ t ≠ "" ∧ t ∈ entries.map Prod.fst := by
  simp only [buildResult, List.mem_map, List.mem_filter, bne_iff_ne, ne_eq]
  constructor
  · rintro ⟨p, ⟨hpE, hpne⟩, rfl⟩
    exact ⟨hpne, p, hpE, rfl⟩
  · rintro ⟨htne, p, hpE, rfl⟩
    exact ⟨p, ⟨hpE, htne⟩, rfl⟩

/-- C3, amended: `getLatestRates` fails with NotFound (404) exactly when
no rows exist for the base; otherwise it returns one entry per distinct
non-empty target currency observed for the base (an empty-string target
passes the rank-1 selection but is dropped by the result-record filter),
each entry carrying the rate of a stored row whose `fetchedAt` is
greatest among all rows for that (base, target). -/
theorem getLatestRates_spec (store : Store) (base : String) :
    (rowsForBase store base = [] →
      getLatestRates store base = .error (latestNotFound base)) ∧
    (rowsForBase store base ≠ [] → ∃ l, getLatestRates store base = .ok l ∧
      (l.map Prod.fst).Nodup ∧
      (∀ t : String, t ∈ l.map Prod.fst ↔
        (t ≠ "" ∧ ∃ r ∈ store, r.baseCurrency = base ∧ r.targetCurrency = t)) ∧
      (∀ p ∈ l, ∃ r ∈ store, r.baseCurrency = base ∧ r.targetCurrency = p.1 ∧
        r.rate = p.2 ∧
        ∀ r2 ∈ store, r2.baseCurrency = base → r2.targetCurrency = p.1 →
          r2.fetchedAt ≤ r.fetchedAt)) := by
  have hpart_mem : ∀ (t : String) (r : ExchangeRate),
      r ∈ (rowsForBase store base).filter (fun r => r.targetCurrency == t) ↔
        r ∈ store ∧ r.baseCurrency = base ∧ r.targetCurrency = t := by
    intro t r
    rw [List.mem_filter, mem_rowsForBase]
    simp [and_assoc]
  constructor
  · intro hrows
    simp [getLatestRates, latestEntries, hrows, dedupFirst]
  · intro hrows
    have hpart_ne : ∀ t ∈ dedupFirst ((rowsForBase store base).map ExchangeRate.targetCurrency),
        (rowsForBase store base).filter (fun r => r.targetCurrency == t) ≠ [] := by
      intro t ht
      have ht' : t ∈ (rowsForBase store base).map ExchangeRate.targetCurrency :=
        (mem_dedupFirst _ t).mp ht
      obtain ⟨r, hr, hrt⟩ := List.mem_map.mp ht'
      have : r ∈ (rowsForBase store base).filter (fun r => r.targetCurrency == t) :=
        List.mem_filter.mpr ⟨hr, by rw [hrt]; exact beq_self_eq_true t⟩
      exact List.ne_nil_of_mem this
    have hfst : (latestEntries store base).map Prod.fst =
        dedupFirst ((rowsForBase store base).map ExchangeRate.targetCurrency) :=
      latestEntries_fst (rowsForBase store base) _ hpart_ne
    have hts_ne : dedupFirst ((rowsForBase store base).map ExchangeRate.targetCurrency) ≠ [] := by
      obtain ⟨r, rs, hcons⟩ := List.exists_cons_of_ne_nil hrows
      rw [hcons]
      simp only [List.map_cons]
      rw [dedupFirst]
      exact List.cons_ne_nil _ _
    have hne : latestEntries store base ≠ [] := by
      intro hcontra
      rw [hcontra] at hfst
      exact hts_ne hfst.symm
    have hok : getLatestRates store base = .ok (buildResult (latestEntries store base)) := by
      rw [getLatestRates, if_neg (by simpa [List.isEmpty_iff] using hne)]
    refine ⟨buildResult (latestEntries store base), hok, ?_, ?_, ?_⟩
    · have hnodup : ((latestEntries store base).map Prod.fst).Nodup := by
        rw [hfst]; exact nodup_dedupFirst _
      exact hnodup.sublist ((List.filter_sublist _).map Prod.fst)
    · intro t
      rw [mem_buildResult_fst, hfst, mem_dedupFirst]
      constructor
      · rintro ⟨htne, ht⟩
        obtain ⟨r, hr, hrt⟩ := List.mem_map.mp ht
        exact ⟨htne, r, (mem_rowsForBase store base r).mp hr |>.1,
          (mem_rowsForBase store base r).mp hr |>.2, hrt⟩
      · rintro ⟨htne, r, hr, hb, ht⟩
        exact ⟨htne,
          List.mem_map.mpr ⟨r, (mem_rowsForBase store base r).mpr ⟨hr, hb⟩, ht⟩⟩
    · intro p hp
      have hpE : p ∈ latestEntries store base := List.mem_of_mem_filter hp
      obtain ⟨t, _, hFt⟩ := List.mem_filterMap.mp hpE
      obtain ⟨m, hm, hmp⟩ := Option.map_eq_some'.mp hFt
      obtain ⟨hmem, hmax⟩ := pickLatest_spec _ m hm
      obtain ⟨hm_store, hm_base, hm_target⟩ := (hpart_mem t m).mp hmem
      refine ⟨m, hm_store, hm_base, ?_, ?_, ?_⟩
      · rw [← hmp]; exact hm_target
      · rw [← hmp]
      · intro r2 hr2 hr2b hr2t
        refine hmax r2 ((hpart_mem t r2).mpr ⟨hr2, hr2b, ?_⟩)
        rw [hr2t, ← hmp]

/-- A concrete store: two USD→INR rows (the second newer) and one
USD→EUR row. -/
def latestExampleStore : Store :=
  [⟨"USD", "INR", 83, 60000, 1⟩, ⟨"USD", "INR", 84, 120000, 2⟩, ⟨"USD", "EUR", 1, 120000, 2⟩]

/-- Witness for C3 at concrete stores: the empty store yields the 404
error, and a three-row store yields the latest-per-target result. -/
theorem getLatestRates_spec_witness :
    (rowsForBase ([] : Store) "USD" = [] ∧
      getLatestRates ([] : Store) "USD" = .error (latestNotFound "USD")) ∧
    (rowsForBase latestExampleStore "USD" ≠ [] ∧
      ∃ l, getLatestRates latestExampleStore "USD" = .ok l ∧
        (l.map Prod.fst).Nodup ∧
        (∀ t : String, t ∈ l.map Prod.fst ↔
          (t ≠ "" ∧
            ∃ r ∈ latestExampleStore, r.baseCurrency = "USD" ∧ r.targetCurrency = t)) ∧
        (∀ p ∈ l, ∃ r ∈ latestExampleStore, r.baseCurrency = "USD" ∧
          r.targetCurrency = p.1 ∧ r.rate = p.2 ∧
          ∀ r2 ∈ latestExampleStore, r2.baseCurrency = "USD" → r2.targetCurrency = p.1 →
            r2.fetchedAt ≤ r.fetchedAt)) :=
  ⟨⟨rfl, (getLatestRates_spec [] "USD").1 rfl⟩,
   ⟨by decide, (getLatestRates_spec latestExampleStore "USD").2 (by decide)⟩⟩

/-! ### getLatestTimestamp (`CurrencyService.getLatestTimestamp`)

`SELECT MAX(rate.fetchedAt) ... WHERE rate.baseCurrency = :base`, then
`result?.max || new Date().toISOString()`. Postgres returns a non-NULL
`MAX` as a non-empty ISO string (truthy), so the fallback to the current
time fires exactly when no row matches; the ISO rendering itself is
dropped in the epoch-millisecond model. -/

def maxFetchedAt : Store → Option Int
  | [] => none
  | r :: rs => some (rs.foldl (fun acc x => max acc x.fetchedAt) r.fetchedAt)

def getLatestTimestamp (store : Store) (base : String) (nowMs : Int) : Int :=
  match maxFetchedAt (rowsForBase store base) with
  | some m => m
  | none => nowMs

lemma foldl_max_ge (rs : Store) :
    ∀ a : Int, a ≤ rs.foldl (fun acc x => max acc x.fetchedAt) a ∧
      ∀ x ∈ rs, x.fetchedAt ≤ rs.foldl (fun acc x => max acc x.fetchedAt) a := by
  induction rs with
  | nil => intro a; exact ⟨le_refl _, by simp⟩
  | cons y t ih =>
    intro a
    simp only [List.foldl_cons]
    obtain ⟨h1, h2⟩ := ih (max a y.fetchedAt)
    refine ⟨le_trans (le_max_left _ _) h1, ?_⟩
    intro x hx
    rcases List.mem_cons.mp hx with rfl | hx
    · exact le_trans (le_max_right _ _) h1
    · exact h2 x hx

lemma foldl_max_attained (rs : Store) :
    ∀ a : Int, rs.foldl (fun acc x => max acc x.fetchedAt) a = a ∨
      ∃ x ∈ rs, rs.foldl (fun acc x => max acc x.fetchedAt) a = x.fetchedAt := by
  induction rs with
  | nil => intro a; exact Or.inl rfl
  | cons y t ih =>
    intro a
    simp only [List.foldl_cons]
    rcases ih (max a y.fetchedAt) with h | h
    · rcases max_choice a y.fetchedAt with hm | hm
      · exact Or.inl (h.trans hm)
      · exact Or.inr ⟨y, List.mem_cons_self y t, h.trans hm⟩
    · obtain ⟨x, hx, hfx⟩ := h
      exact Or.inr ⟨x, List.mem_cons_of_mem y hx, hfx⟩

/-- C10: `getLatestTimestamp` never fails: with no rows for the base it
returns the supplied current time, and otherwise it returns the maximum
`fetchedAt` over all rows stored for that base. -/
theorem getLatestTimestamp_spec (store : Store) (base : String) (nowMs : Int) :
    (rowsForBase store base = [] → getLatestTimestamp store base nowMs = nowMs) ∧
    (rowsForBase store base ≠ [] →
      (∃ r ∈ store, r.baseCurrency = base ∧
        getLatestTimestamp store base nowMs = r.fetchedAt) ∧
      (∀ r ∈ store, r.baseCurrency = base →
        r.fetchedAt ≤ getLatestTimestamp store base nowMs)) := by
  constructor
  · intro hrows
    simp [getLatestTimestamp, hrows, maxFetchedAt]
  · intro hrows
    obtain ⟨r, rs, hcons⟩ := List.exists_cons_of_ne_nil hrows
    have hval : getLatestTimestamp store base nowMs =
        rs.foldl (fun acc x => max acc x.fetchedAt) r.fetchedAt := by
      simp [getLatestTimestamp, hcons, maxFetchedAt]
    constructor
    · rcases foldl_max_attained rs r.fetchedAt with h | h
      · refine ⟨r, ?_, ?_, by rw [hval, h]⟩
        · exact ((mem_rowsForBase store base r).mp (hcons ▸ List.mem_cons_self r rs)).1
        · exact ((mem_rowsForBase store base r).mp (hcons ▸ List.mem_cons_self r rs)).2
      · obtain ⟨x, hx, hfx⟩ := h
        have hxrows : x ∈ rowsForBase store base := hcons ▸ List.mem_cons_of_mem r hx
        refine ⟨x, ((mem_rowsForBase store base x).mp hxrows).1,
          ((mem_rowsForBase store base x).mp hxrows).2, by rw [hval, hfx]⟩
    · intro r2 hr2 hr2b
      have hr2rows : r2 ∈ rowsForBase store base :=
        (mem_rowsForBase store base r2).mpr ⟨hr2, hr2b⟩
      rw [hcons] at hr2rows
      obtain ⟨h1, h2⟩ := foldl_max_ge rs r.fetchedAt
      rcases List.mem_cons.mp hr2rows with rfl | hr2rows
      · rw [hval]; exact h1
      · rw [hval]; exact h2 r2 hr2rows

/-- Witness for C10: empty store falls back to the current time, and the
three-row store yields the maximal `fetchedAt` for the base. -/
theorem getLatestTimestamp_spec_witness :
    (rowsForBase ([] : Store) "USD" = [] ∧
      getLatestTimestamp ([] : Store) "USD" 5000 = 5000) ∧
    (rowsForBase latestExampleStore "USD" ≠ [] ∧
      (∃ r ∈ latestExampleStore, r.baseCurrency = "USD" ∧
        getLatestTimestamp latestExampleStore "USD" 5000 = r.fetchedAt) ∧
      (∀ r ∈ latestExampleStore, r.baseCurrency = "USD" →
        r.fetchedAt ≤ getLatestTimestamp latestExampleStore "USD" 5000)) :=
  ⟨⟨rfl, (getLatestTimestamp_spec [] "USD" 5000).1 rfl⟩,
   ⟨by decide, (getLatestTimestamp_spec latestExampleStore "USD" 5000).2 (by decide)⟩⟩

/-! ### getAverageRate (`CurrencyService.getAverageRate`)

`getStartDateFromPeriod` mirrors the `switch` on the period token;
`AVG(rate.rate)` over the rows matching
(baseCurrency, targetCurrency, fetchedAt >= startDate) is NULL exactly
when no row matches, and under the configured Postgres driver a non-NULL
numeric arrives as a non-empty string, so the JS `!result?.avgRate` test
fires exactly on NULL. -/

def getStartDateFromPeriod (nowMs : Int) (period : String) : Int :=
  if period == "1h" then nowMs - 3600000
  else if period == "6h" then nowMs - 21600000
  else if period == "12h" then nowMs - 43200000
  else if period == "24h" then nowMs - 86400000
  else if period == "7d" then nowMs - 604800000
  else nowMs - 86400000

def matchingRows (store : Store) (base target : String) (since : Int) : Store :=
  store.filter (fun r =>
    r.baseCurrency == base && r.targetCurrency == target && decide (since ≤ r.fetchedAt))

/-- SQL `AVG` of the matching rows: `none` models NULL (no matching row). -/
def avgQuery (store : Store) (base target : String) (since : Int) : Option Rat :=
  if matchingRows store base target since = [] then none
  else some (((matchingRows store base target since).map ExchangeRate.rate).sum /
    ((matchingRows store base target since).length : Rat))

def avgNotFound (base target period : String) : HttpException :=
  ⟨404, "No rates found for " ++ base ++ "→" ++ target ++ " in period " ++ period⟩

def getAverageRate (store : Store) (base target period : String) (nowMs : Int) :
    Except HttpException Rat :=
  match avgQuery store base target (getStartDateFromPeriod nowMs period) with
  | none => .error (avgNotFound base target period)
  | some q => .ok q

/-- Three USD→INR rows with rates 1, 2, 3 inside the 24h window ending at
epoch 172800000 ms. -/
def avgExampleStore : Store :=
  [⟨"USD", "INR", 1, 90000000, 1500⟩, ⟨"USD", "INR", 2, 90060000, 1501⟩,
   ⟨"USD", "INR", 3, 90120000, 1502⟩]

/-- C4: any value returned by `getAverageRate` is the exact arithmetic
mean of the matching rows' rates (value times count equals the sum), and
over a window containing exactly the rates [1, 2, 3] it returns 2
exactly. -/
theorem getAverageRate_exact_mean (store : Store) (base target period : String) (nowMs : Int) :
    (∀ m : Rat, getAverageRate store base target period nowMs = .ok m →
      m * ((matchingRows store base target (getStartDateFromPeriod nowMs period)).length : Rat) =
        ((matchingRows store base target (getStartDateFromPeriod nowMs period)).map
          ExchangeRate.rate).sum) ∧
    getAverageRate avgExampleStore "USD" "INR" "24h" 172800000 = .ok 2 := by
  constructor
  · intro m hok
    by_cases hms : matchingRows store base target (getStartDateFromPeriod nowMs period) = []
    · simp [getAverageRate, avgQuery, hms] at hok
    · have hm : m = ((matchingRows store base target
          (getStartDateFromPeriod nowMs period)).map ExchangeRate.rate).sum /
          ((matchingRows store base target (getStartDateFromPeriod nowMs period)).length : Rat) := by
        simp [getAverageRate, avgQuery, hms] at hok
        exact hok.symm
      have hlen : ((matchingRows store base target
          (getStartDateFromPeriod nowMs period)).length : Rat) ≠ 0 := by
        have := List.length_pos.mpr hms
        exact_mod_cast Nat.pos_iff_ne_zero.mp this
      rw [hm, div_mul_cancel₀ _ hlen]
  · have hms : matchingRows avgExampleStore "USD" "INR"
        (getStartDateFromPeriod 172800000 "24h") = avgExampleStore := by decide
    have hq : avgQuery avgExampleStore "USD" "INR" (getStartDateFromPeriod 172800000 "24h") =
        some (((avgExampleStore.map ExchangeRate.rate).sum) / (avgExampleStore.length : Rat)) := by
      simp only [avgQuery, hms]
      rw [if_neg (by decide)]
    simp only [getAverageRate]
    rw [hq]
    simp only [avgExampleStore, List.map_cons, List.map_nil, List.sum_cons, List.sum_nil,
      List.length_cons, List.length_nil, Except.ok.injEq]
    norm_num

/-- Witness for C4: the theorem applied to the concrete [1, 2, 3] window. -/
theorem getAverageRate_exact_mean_witness :
    getAverageRate avgExampleStore "USD" "INR" "24h" 172800000 = .ok 2 ∧
    (2 : Rat) * ((matchingRows avgExampleStore "USD" "INR"
        (getStartDateFromPeriod 172800000 "24h")).length : Rat) =
      ((matchingRows avgExampleStore "USD" "INR"
        (getStartDateFromPeriod 172800000 "24h")).map ExchangeRate.rate).sum :=
  ⟨(getAverageRate_exact_mean avgExampleStore "USD" "INR" "24h" 172800000).2,
   (getAverageRate_exact_mean avgExampleStore "USD" "INR" "24h" 172800000).1 2
     (getAverageRate_exact_mean avgExampleStore "USD" "INR" "24h" 172800000).2⟩

/-- C5: `getAverageRate` fails with the NotFound (404) error exactly when
no stored row matches (base, target, fetchedAt >= window start); whenever
at least one row matches it succeeds with a value. -/
theorem getAverageRate_notFound_iff (store : Store) (base target period : String) (nowMs : Int) :
    (getAverageRate store base target period nowMs = .error (avgNotFound base target period) ↔
      matchingRows store base target (getStartDateFromPeriod nowMs period) = []) ∧
    (matchingRows store base target (getStartDateFromPeriod nowMs period) ≠ [] →
      ∃ q, getAverageRate store base target period nowMs = .ok q) := by
  constructor
  · constructor
    · intro herr
      by_contra hms
      simp [getAverageRate, avgQuery, hms] at herr
    · intro hms
      simp [getAverageRate, avgQuery, hms]
  · intro hms
    refine ⟨((matchingRows store base target (getStartDateFromPeriod nowMs period)).map
        ExchangeRate.rate).sum /
        ((matchingRows store base target (getStartDateFromPeriod nowMs period)).length : Rat), ?_⟩
    simp [getAverageRate, avgQuery, hms]

/-- Witness for C5: the concrete window matches three rows and succeeds;
the empty store has no match and fails with 404. -/
theorem getAverageRate_notFound_iff_witness :
    (matchingRows avgExampleStore "USD" "INR"
        (getStartDateFromPeriod 172800000 "24h") ≠ [] ∧
      ∃ q, getAverageRate avgExampleStore "USD" "INR" "24h" 172800000 = .ok q) ∧
    getAverageRate ([] : Store) "USD" "INR" "24h" 172800000 =
      .error (avgNotFound "USD" "INR" "24h") :=
  ⟨⟨by decide, (getAverageRate_notFound_iff avgExampleStore "USD" "INR" "24h" 172800000).2
      (by decide)⟩,
   (getAverageRate_notFound_iff ([] : Store) "USD" "INR" "24h" 172800000).1.mpr rfl⟩

/-! ### FrankfurterService (upstream client)

`fetchLatest` loops `attempt = 1 .. maxRetries (= 3)`. Each attempt's
network request and `validateResponse` run inside one try: any throw is
caught, and the catch either throws `HttpException(503)` when
`attempt === maxRetries` or sleeps `2^(attempt-1) * 1000` ms and
continues. The network outcome of each attempt is an oracle; a raw JSON
value is modelled only as far as `validateResponse` inspects it. -/

/-- A JS value in the `rates` mapping: a (non-NaN) number, `NaN`, or a
value whose `typeof` is not `'number'`. -/
inductive JsonValue
  | num (q : Rat)
  | nan
  | notNumber
deriving Repr, DecidableEq

/-- The upstream response body as far as `validateResponse` looks at it:
`date` is `none` when absent (`some ""` is also falsy for `!date`), and
`rates` is `none` when absent or not an object. `none` at the top models
`!data || typeof data !== 'object'`. -/
structure RawPayload where
  date : Option String
  rates : Option (List (String × JsonValue))
deriving Repr, DecidableEq

/-- JS falsiness of an optional string: `undefined`/`null` or `""`. -/
def jsFalsyStr : Option String → Bool
  | none => true
  | some s => s == ""

/-- The per-entry loop of `FrankfurterService.validateResponse`: throws on
the first non-numeric or NaN rate, otherwise applies `toFixed(6)`
rounding. -/
def validateRates : List (String × JsonValue) → Except String (List (String × Rat))
  | [] => .ok []
  | (currency, .num q) :: rest =>
    match validateRates rest with
    | .ok tail => .ok ((currency, round6 q) :: tail)
    | .error e => .error e
  | (currency, .nan) :: _ => .error ("Invalid rate value for " ++ currency)
  | (currency, .notNumber) :: _ => .error ("Invalid rate value for " ++ currency)

/-- `FrankfurterService.validateResponse`. -/
def validateResponse (data : Option RawPayload) : Except String Snapshot :=
  match data with
  | none => .error "Invalid Frankfurter API response structure"
  | some d =>
    match d.date, d.rates with
    | some dt, some rs =>
      if dt == "" then .error "Missing date or rates in Frankfurter response"
      else
        match validateRates rs with
        | .ok validatedRates => .ok ⟨dt, validatedRates⟩
        | .error e => .error e
    | _, _ => .error "Missing date or rates in Frankfurter response"

/-- Network-level outcome of one attempt: a failure (timeout, 5xx, ...)
or an HTTP success carrying a raw body. -/
inductive AttemptResult
  | netError
  | payload (data : Option RawPayload)

/-- What one iteration's try-block produces: the raw fetch followed by
`validateResponse`; any throw is an `error`. -/
def attemptOutcome (oracle : Nat → AttemptResult) (i : Nat) : Except String Snapshot :=
  match oracle i with
  | .netError => .error "request failed"
  | .payload d => validateResponse d

def upstreamUnavailable : HttpException :=
  ⟨503, "Failed to fetch exchange rates from upstream provider"⟩

/-- Observable result of `fetchLatest`: the returned snapshot or thrown
exception, the number of attempts made, and the sleeps performed (ms). -/
structure FetchResult where
  outcome : Except HttpException Snapshot
  attempts : Nat
  delays : List Nat
deriving Repr

/-- The retry loop, with `fuel = maxRetries - attempt + 1` remaining
iterations; `fuel = 1` iff `attempt === maxRetries` (the `isLastAttempt`
test). `delayMs = 2^(attempt-1) * 1000` is slept only when not last. -/
def fetchLoop (oracle : Nat → AttemptResult) : Nat → Nat → List Nat → FetchResult
  | attempt, 0, delays => ⟨.error upstreamUnavailable, attempt, delays⟩
  | attempt, fuel + 1, delays =>
    match attemptOutcome oracle attempt with
    | .ok snap => ⟨.ok snap, attempt, delays⟩
    | .error _ =>
      if fuel == 0 then ⟨.error upstreamUnavailable, attempt, delays⟩
      else fetchLoop oracle (attempt + 1) fuel (delays ++ [Nat.pow 2 (attempt - 1) * 1000])

/-- `FrankfurterService.fetchLatest` with `maxRetries = 3`. -/
def fetchLatest (oracle : Nat → AttemptResult) : FetchResult :=
  fetchLoop oracle 1 3 []

lemma fetchLatest_cases (oracle : Nat → AttemptResult) :
    (∃ s, attemptOutcome oracle 1 = .ok s ∧ fetchLatest oracle = ⟨.ok s, 1, []⟩) ∨
    (∃ m1, attemptOutcome oracle 1 = .error m1 ∧
      ((∃ s, attemptOutcome oracle 2 = .ok s ∧ fetchLatest oracle = ⟨.ok s, 2, [1000]⟩) ∨
       (∃ m2, attemptOutcome oracle 2 = .error m2 ∧
         ((∃ s, attemptOutcome oracle 3 = .ok s ∧
            fetchLatest oracle = ⟨.ok s, 3, [1000, 2000]⟩) ∨
          (∃ m3, attemptOutcome oracle 3 = .error m3 ∧
            fetchLatest oracle = ⟨.error upstreamUnavailable, 3, [1000, 2000]⟩))))) := by
  have e1 : fetchLatest oracle =
      match attemptOutcome oracle 1 with
      | .ok snap => ⟨.ok snap, 1, []⟩
      | .error _ => fetchLoop oracle 2 2 [1000] := rfl
  have e2 : fetchLoop oracle 2 2 [1000] =
      match attemptOutcome oracle 2 with
      | .ok snap => ⟨.ok snap, 2, [1000]⟩
      | .error _ => fetchLoop oracle 3 1 [1000, 2000] := rfl
  have e3 : fetchLoop oracle 3 1 [1000, 2000] =
      match attemptOutcome oracle 3 with
      | .ok snap => ⟨.ok snap, 3, [1000, 2000]⟩
      | .error _ => ⟨.error upstreamUnavailable, 3, [1000, 2000]⟩ := rfl
  cases h1 : attemptOutcome oracle 1 with
  | ok s => exact Or.inl ⟨s, rfl, by rw [e1, h1]⟩
  | error m1 =>
    refine Or.inr ⟨m1, rfl, ?_⟩
    cases h2 : attemptOutcome oracle 2 with
    | ok s => exact Or.inl ⟨s, rfl, by rw [e1, h1, e2, h2]⟩
    | error m2 =>
      refine Or.inr ⟨m2, rfl, ?_⟩
      cases h3 : attemptOutcome oracle 3 with
      | ok s => exact Or.inl ⟨s, rfl, by rw [e1, h1, e2, h2, e3, h3]⟩
      | error m3 => exact Or.inr ⟨m3, rfl, by rw [e1, h1, e2, h2, e3, h3]⟩

/-- C6: `fetchLatest` makes between 1 and 3 attempts with the doubling
1s, 2s backoff between them; its only error outcome is the single
`HttpException(503)` after all 3 attempts fail (so no attempt-level error
is surfaced), and a malformed payload (rejected by `validateResponse`)
counts as a failed attempt that is retried like a network failure. -/
theorem fetchLatest_retry_spec :
    (∀ oracle, 1 ≤ (fetchLatest oracle).attempts ∧ (fetchLatest oracle).attempts ≤ 3) ∧
    (∀ oracle e, (fetchLatest oracle).outcome = .error e → e = upstreamUnavailable) ∧
    (∀ oracle, (∀ i, 1 ≤ i → i ≤ 3 → ∃ msg, attemptOutcome oracle i = .error msg) →
      fetchLatest oracle = ⟨.error upstreamUnavailable, 3, [1000, 2000]⟩) ∧
    (∀ oracle d msg snap, oracle 1 = .payload d → validateResponse d = .error msg →
      attemptOutcome oracle 2 = .ok snap →
      fetchLatest oracle = ⟨.ok snap, 2, [1000]⟩) := by
  refine ⟨?_, ?_, ?_, ?_⟩
  · intro oracle
    rcases fetchLatest_cases oracle with ⟨s, _, he⟩ | ⟨m1, _, hrest⟩
    · rw [he]; exact ⟨le_refl 1, by norm_num⟩
    · rcases hrest with ⟨s, _, he⟩ | ⟨m2, _, hrest⟩
      · rw [he]; exact ⟨by norm_num, by norm_num⟩
      · rcases hrest with ⟨s, _, he⟩ | ⟨m3, _, he⟩ <;>
          (rw [he]; exact ⟨by norm_num, le_refl 3⟩)
  · intro oracle e he
    rcases fetchLatest_cases oracle with ⟨s, _, hr⟩ | ⟨m1, _, hrest⟩
    · rw [hr] at he; cases he
    · rcases hrest with ⟨s, _, hr⟩ | ⟨m2, _, hrest⟩
      · rw [hr] at he; cases he
      · rcases hrest with ⟨s, _, hr⟩ | ⟨m3, _, hr⟩
        · rw [hr] at he; cases he
        · rw [hr] at he
          exact (Except.error.inj he).symm
  · intro oracle hall
    rcases fetchLatest_cases oracle with ⟨s, h1, _⟩ | ⟨m1, h1, hrest⟩
    · obtain ⟨msg, hmsg⟩ := hall 1 (le_refl 1) (by norm_num)
      rw [h1] at hmsg; cases hmsg
    · rcases hrest with ⟨s, h2, _⟩ | ⟨m2, h2, hrest⟩
      · obtain ⟨msg, hmsg⟩ := hall 2 (by norm_num) (by norm_num)
        rw [h2] at hmsg; cases hmsg
      · rcases hrest with ⟨s, h3, _⟩ | ⟨m3, h3, hr⟩
        · obtain ⟨msg, hmsg⟩ := hall 3 (by norm_num) (le_refl 3)
          rw [h3] at hmsg; cases hmsg
        · exact hr
  · intro oracle d msg snap ho1 hval h2
    have h1 : attemptOutcome oracle 1 = .error msg := by
      rw [attemptOutcome, ho1]
      exact hval
    rcases fetchLatest_cases oracle with ⟨s, hs1, _⟩ | ⟨m1, _, hrest⟩
    · rw [h1] at hs1; cases hs1
    · rcases hrest with ⟨s, hs2, hr⟩ | ⟨m2, hm2, _⟩
      · rw [h2] at hs2
        rw [Except.ok.inj hs2]
        exact hr
      · rw [h2] at hm2; cases hm2

/-- Witness for C6: an always-failing oracle exhausts the 3 attempts with
the 1s, 2s backoffs and surfaces only the 503 error. -/
theorem fetchLatest_retry_spec_witness :
    fetchLatest (fun _ => AttemptResult.netError) =
      ⟨.error upstreamUnavailable, 3, [1000, 2000]⟩ :=
  fetchLatest_retry_spec.2.2.1 (fun _ => AttemptResult.netError)
    (fun _ _ _ => ⟨"request failed", rfl⟩)

lemma round6_den (q : Rat) : (round6 q * 1000000).den = 1 := by
  unfold round6
  rw [div_mul_cancel₀ _ (by norm_num : (1000000 : Rat) ≠ 0)]
  exact Rat.den_intCast _

lemma validateRates_ok :
    ∀ (l : List (String × JsonValue)) (out : List (String × Rat)),
      validateRates l = .ok out → ∀ p ∈ out, ∃ q : Rat, p.2 = round6 q := by
  intro l
  induction l with
  | nil =>
    intro out h p hp
    rw [validateRates] at h
    rw [← Except.ok.inj h] at hp
    cases hp
  | cons a rest ih =>
    intro out h p hp
    obtain ⟨c, v⟩ := a
    cases v with
    | num q =>
      rw [validateRates] at h
      cases htail : validateRates rest with
      | ok tail =>
        rw [htail] at h
        rw [← Except.ok.inj h] at hp
        rcases List.mem_cons.mp hp with rfl | hp
        · exact ⟨q, rfl⟩
        · exact ih tail htail p hp
      | error e => rw [htail] at h; cases h
    | nan => rw [validateRates] at h; cases h
    | notNumber => rw [validateRates] at h; cases h

/-- C7: every rate in a snapshot accepted by `validateResponse` is a
number of the form `Number(raw.toFixed(6))`: an exact multiple of 10⁻⁶
(its value times 10⁶ is an integer). -/
theorem validateResponse_rounded (data : Option RawPayload) (s : Snapshot)
    (h : validateResponse data = .ok s) :
    ∀ p ∈ s.rates, (∃ q : Rat, p.2 = round6 q) ∧ (p.2 * 1000000).den = 1 := by
  intro p hp
  cases data with
  | none => rw [validateResponse] at h; cases h
  | some d =>
    cases hdate : d.date with
    | none => rw [validateResponse, hdate] at h; cases hrates : d.rates <;> (rw [hrates] at h; cases h)
    | some dt =>
      cases hrates : d.rates with
      | none => rw [validateResponse, hdate, hrates] at h; cases h
      | some rs =>
        rw [validateResponse, hdate, hrates] at h
        have h' : (if (dt == "") = true then
              (Except.error "Missing date or rates in Frankfurter response" :
                Except String Snapshot)
            else
              match validateRates rs with
              | .ok validatedRates => .ok ⟨dt, validatedRates⟩
              | .error e => .error e) = .ok s := h
        by_cases hdt : (dt == "") = true
        · rw [if_pos hdt] at h'; cases h'
        · rw [if_neg hdt] at h'
          cases hval : validateRates rs with
          | ok validatedRates =>
            rw [hval] at h'
            have hs : s = ⟨dt, validatedRates⟩ := (Except.ok.inj h').symm
            rw [hs] at hp
            obtain ⟨q, hq⟩ := validateRates_ok rs validatedRates hval p hp
            exact ⟨⟨q, hq⟩, by rw [hq]; exact round6_den q⟩
          | error e => rw [hval] at h'; cases h'

/-- Witness for C7: a concrete valid payload passes validation and its
single rate is 6-digit rounded. -/
theorem validateResponse_rounded_witness :
    validateResponse (some ⟨some "2026-02-08", some [("INR", JsonValue.num 83)]⟩) =
      .ok ⟨"2026-02-08", [("INR", (83 : Rat))]⟩ ∧
    ∀ p ∈ (Snapshot.mk "2026-02-08" [("INR", (83 : Rat))]).rates,
      (∃ q : Rat, p.2 = round6 q) ∧ (p.2 * 1000000).den = 1 := by
  have h83 : round6 83 = 83 := by unfold round6; norm_num
  have hv : validateResponse (some ⟨some "2026-02-08", some [("INR", JsonValue.num 83)]⟩) =
      .ok ⟨"2026-02-08", [("INR", (83 : Rat))]⟩ := by
    rw [validateResponse]
    simp only [validateRates, h83]
    rw [if_neg (by decide)]
  exact ⟨hv, validateResponse_rounded _ _ hv⟩

/-! ### ApiKeyGuard (`src/common/guards/api-key.gaurd.ts`)

`canActivate` admits `/health` unconditionally, otherwise reads the
credential from the `x-api-key` header falling back (JS `||`) to the
`api_key` query parameter, throws `UnauthorizedException` (401) when no
server-side key is configured (`!this.apiKey`: unset or empty), and
otherwise compares the supplied credential to the configured key. -/

structure GuardRequest where
  url : String
  headerApiKey : Option String
  queryApiKey : Option String
deriving Repr, DecidableEq

def canActivate (configuredKey : Option String) (req : GuardRequest) :
    Except HttpException Bool :=
  if req.url == "/health" then .ok true
  else
    let key := if jsFalsyStr req.headerApiKey then req.queryApiKey else req.headerApiKey
    if jsFalsyStr configuredKey then .error ⟨401, "API key not configured"⟩
    else if key == configuredKey then .ok true
    else .error ⟨401, "Invalid or missing API key"⟩

/-- C9: with no configured secret (unset or empty `API_KEY`), every
request to a non-health URL is refused with 401 whatever credential it
carries; requests to `/health` are always admitted, with or without a
configured secret or credential. -/
theorem guard_fail_closed (cfg : Option String) (req : GuardRequest) :
    (req.url = "/health" → canActivate cfg req = .ok true) ∧
    (req.url ≠ "/health" → jsFalsyStr cfg = true →
      canActivate cfg req = .error ⟨401, "API key not configured"⟩) := by
  constructor
  · intro hurl
    rw [canActivate, if_pos (by rw [hurl]; exact beq_self_eq_true _)]
  · intro hurl hcfg
    rw [canActivate, if_neg (by simpa using hurl)]
    simp only [hcfg, if_pos]

/-- Witness for C9: an unconfigured server refuses a credentialed request
to a rates endpoint and still admits the health check. -/
theorem guard_fail_closed_witness :
    canActivate none ⟨"/rates/latest", some "secret", none⟩ =
      .error ⟨401, "API key not configured"⟩ ∧
    canActivate none ⟨"/health", none, none⟩ = .ok true :=
  ⟨(guard_fail_closed none ⟨"/rates/latest", some "secret", none⟩).2 (by decide) rfl,
   (guard_fail_closed none ⟨"/health", none, none⟩).1 rfl⟩

end CurrencySpec
